import Mathlib

/-!
Verification of the agent-orchestration core of the nexus_copilot FastAPI
backend (task context, robust JSON extraction, tool dispatcher, step ledger,
mode loops, report assembler), as a shallow embedding in Lean.

Conventions of the embedding:
* Python strings are modelled as `String` (or `List Char` where substring
  reasoning is needed); Python dicts whose keys are known are modelled as
  structures, and open-keyed dicts as association lists.
* Database rows are modelled as lists of row structures; `uuid4` identifiers
  are modelled as values drawn from a monotone counter (fresh and unique,
  which is the property the code relies on).
* LLM responses and tool observations are environment inputs, passed as
  explicit script/oracle parameters; the embedded control flow is exactly
  the code under `app/agents/`.
-/

namespace NexusCopilot

/-- Generic association-list lookup, modelling Python dict `get` on
string-keyed dicts. -/
def assocFind {α : Type} (l : List (String × α)) (k : String) : Option α :=
  match l with
  | [] => none
  | kv :: rest => if kv.1 = k then some kv.2 else assocFind rest k

/-- Decides whether the pattern list is a prefix of the text list. -/
def isPrefixList : List Char → List Char → Bool
  | [], _ => true
  | _ :: _, [] => false
  | p :: ps, c :: cs => p = c && isPrefixList ps cs

/-- Decides whether the pattern occurs as a contiguous segment of the text,
modelling the Python substring test `pat in text`. -/
def containsSeq (text pat : List Char) : Bool :=
  match text with
  | [] => isPrefixList pat []
  | c :: rest => isPrefixList pat (c :: rest) || containsSeq rest pat

/-- Substring test on `String`, modelling the Python expression
`pat in text`. -/
def strContains (text pat : String) : Bool :=
  containsSeq text.toList pat.toList

/- ## finish_task (app/agents/context.py, `_tool_finish_task`)

The tool reads `context.step_results` and never writes to the context, in
particular it never touches `context.is_finished` (the source comment says
the critique step decides termination).  The embedding therefore returns the
context unchanged alongside the produced string. -/

/-- The slice of `TaskContext` that `_tool_finish_task` can see. -/
structure FinishCtx where
  stepResults : List String
  isFinished : Bool
deriving DecidableEq

/-- Fixed message returned by `_tool_finish_task` when both the conclusion
and the accumulated step results are empty. -/
def noConclusionMsg : String :=
  "The task is complete, but no conclusion was provided and no results were generated."

/-- Model of `_tool_finish_task(context, conclusion)`.  Python truthiness of
a string is nonemptiness, and `"\n\n".join` is `String.intercalate`. -/
def toolFinishTask (ctx : FinishCtx) (conclusion : String) : String × FinishCtx :=
  if conclusion = "" && ctx.stepResults.isEmpty then
    (noConclusionMsg, ctx)
  else if conclusion = "" then
    (String.intercalate "\n\n" ctx.stepResults, ctx)
  else
    (conclusion, ctx)

/- ## JSON values

Model of the Python values flowing between `json.loads`, the tool dispatcher
and the mode loops.  Numeric literals are modelled as integers (the code
never relies on fractional JSON numbers). -/

/-- JSON value tree. -/
inductive Json where
  | null : Json
  | bool (b : Bool) : Json
  | num (n : Int) : Json
  | str (s : String) : Json
  | arr (items : List Json) : Json
  | obj (fields : List (String × Json)) : Json

/- ## Tool dispatcher (app/agents/context.py, `_dispatch_tool_call`)

The registry `TOOL_DISPATCHER` maps the three action names to the tool
coroutines.  Dispatch inspects the signature of the target function; the
parameter lists below are transcribed from the Python definitions
(`_tool_retrieve_knowledge(query, api_config, context)`,
`_tool_reasoning_step(thought)`, `_tool_finish_task(context, conclusion)`),
none of which declares a default value. -/

/-- The three registered tools. -/
inductive ToolName where
  | retrieveKnowledge : ToolName
  | reasoningStep : ToolName
  | finishTaskTool : ToolName
deriving DecidableEq

/-- Declared parameters of each tool function, in declaration order, paired
with whether the parameter has a default value (`inspect.Parameter.empty`
is `false` here: no tool parameter has a default). -/
def toolParams : ToolName → List (String × Bool)
  | ToolName.retrieveKnowledge => [("query", false), ("api_config", false), ("context", false)]
  | ToolName.reasoningStep => [("thought", false)]
  | ToolName.finishTaskTool => [("context", false), ("conclusion", false)]

/-- The registry `TOOL_DISPATCHER`. -/
def toolRegistry : List (String × ToolName) :=
  [("retrieve_knowledge", ToolName.retrieveKnowledge),
   ("reasoning_step", ToolName.reasoningStep),
   ("finish_task", ToolName.finishTaskTool)]

/-- An argument value finally passed to a tool: either a value taken from the
model-provided `action_input`, or one of the two context-injected objects. -/
inductive ArgVal where
  | given (v : Json) : ArgVal
  | injectedApiConfig : ArgVal
  | injectedContext : ArgVal

/-- Modelling a Python dict assignment `kwargs[k] = v`: overwrite the value
when the key is present, append it otherwise. -/
def setArg (kwargs : List (String × ArgVal)) (k : String) (v : ArgVal) :
    List (String × ArgVal) :=
  match assocFind kwargs k with
  | some _ => kwargs.map (fun kv => if kv.1 = k then (k, v) else kv)
  | none => kwargs ++ [(k, v)]

/-- Outcome of `_dispatch_tool_call`: either the tool function is invoked
with the assembled keyword arguments, or a `ValueError` is raised before any
function is called.  The `invoked` constructor is the only way a tool runs,
so an `err` result implies no (partial) side effect. -/
inductive DispatchOut where
  | invoked (t : ToolName) (kwargs : List (String × ArgVal)) : DispatchOut
  | err (msg : String) : DispatchOut

/-- The keyword arguments `_dispatch_tool_call` assembles for tool `t` from
a dict payload: filter the payload down to declared parameter names, then
inject `api_config` and `context` when the signature declares them. -/
def buildKwargs (t : ToolName) (kvs : List (String × Json)) : List (String × ArgVal) :=
  let names := (toolParams t).map Prod.fst
  let base : List (String × ArgVal) :=
    (kvs.filter (fun kv => names.contains kv.1)).map (fun kv => (kv.1, ArgVal.given kv.2))
  let k1 := if names.contains "api_config" then setArg base "api_config" ArgVal.injectedApiConfig else base
  if names.contains "context" then setArg k1 "context" ArgVal.injectedContext else k1

/-- Model of `_dispatch_tool_call(context, action, action_input)`:
registry lookup, dict check, filtering to declared parameter names,
context injection, then the required-parameter check, in source order. -/
def dispatchToolCall (action : String) (actionInput : Json) : DispatchOut :=
  match assocFind toolRegistry action with
  | none => DispatchOut.err ("Executor LLM chose an invalid tool: " ++ action)
  | some t =>
    match actionInput with
    | Json.obj kvs =>
      match (toolParams t).find? (fun p => !p.2 && (assocFind (buildKwargs t kvs) p.1).isNone) with
      | some p =>
        DispatchOut.err ("Tool " ++ action ++ " is missing required parameter: " ++ p.1)
      | none => DispatchOut.invoked t (buildKwargs t kvs)
    | _ => DispatchOut.err "Executor LLM failed to provide a valid action_input object."

/- ## Step ledger (agent_task_steps rows for one task)

`_save_step` (context.py, and the identical counting logic in
write_mode.py) computes the next `step_index` as
`COUNT(*) WHERE task_id = ?` plus one and inserts a fresh row;
`_call_llm_and_save` runs `_save_step(..., status="running")`, performs the
LLM call, then runs `_save_step(context, action, data)` again — a second
insert, not an update.  The plan/explore step executors instead insert one
`running` row with an explicit index and later update that same row by id.
A ledger is the list of rows of one task (so `COUNT(*)` is the length)
paired with the uuid supply counter. -/

/-- One `agent_task_steps` row (the columns the claims are about). -/
structure StepRow where
  rowId : Nat
  stepIndex : Nat
  action : String
  status : String
  result : String
deriving DecidableEq

/-- Persisted rows of one task, plus the fresh-identifier supply. -/
structure Ledger where
  rows : List StepRow
  nextId : Nat
deriving DecidableEq

/-- Model of `_save_step(context, action, result, status)` (count-plus-one
index, fresh id, single insert; `context.py:210` and `write_mode.py:62`). -/
def saveStep (db : Ledger) (action result status : String) : Ledger :=
  { rows := db.rows ++ [{ rowId := db.nextId, stepIndex := db.rows.length + 1,
                          action := action, status := status, result := result }],
    nextId := db.nextId + 1 }

/-- Ledger effect of `_call_llm_and_save(context, action, messages)`:
a `running` insert before the model call and a second, `completed` insert
after it.  The retry loop inside `_call_llm_with_retry` performs no database
write, so the `retries` count does not appear on the right-hand side. -/
def callLlmAndSave (db : Ledger) (action data : String) (retries : Nat) : Ledger :=
  let db1 := saveStep db action "" "running"
  let _ := retries
  saveStep db1 action data "completed"

/-- Ledger effect of the insert at the top of `_execute_plan_step` /
`_execute_explore_step`: one `running` row with the loop-provided index. -/
def insertRunningStep (db : Ledger) (stepIndex : Nat) (action : String) : Ledger :=
  { rows := db.rows ++ [{ rowId := db.nextId, stepIndex := stepIndex,
                          action := action, status := "running", result := "" }],
    nextId := db.nextId + 1 }

/-- Ledger effect of the `UPDATE agent_task_steps ... WHERE id = ?` closing a
plan/explore step: the row with the given id is updated in place (status,
action, result); `step_index` is not touched. -/
def completeStepById (db : Ledger) (rid : Nat) (action result : String) : Ledger :=
  { rows := db.rows.map (fun r =>
      if r.rowId = rid then
        { r with status := "completed", action := action, result := result }
      else r),
    nextId := db.nextId }

/-- Ledger effect of one full `_execute_plan_step` / `_execute_explore_step`
call at loop iteration index `i` (the caller passes `i + 1`): insert the
`running` row, then update that same row to `completed`. -/
def executeStepLedger (db : Ledger) (stepIndex : Nat) (action result : String) : Ledger :=
  let rid := db.nextId
  let db1 := insertRunningStep db stepIndex "Thinking..."
  completeStepById db1 rid action result

/-- The ledger operations a mode run is built from: `_save_step` completed
inserts (write mode phases) and `_call_llm_and_save` wrappers (debate and
research modes). -/
inductive LedgerOp where
  | save (action result : String) : LedgerOp
  | callSave (action data : String) (retries : Nat) : LedgerOp

/-- Applies one ledger operation. -/
def applyOp (db : Ledger) : LedgerOp → Ledger
  | LedgerOp.save action result => saveStep db action result "completed"
  | LedgerOp.callSave action data retries => callLlmAndSave db action data retries

/-- Applies a run of ledger operations in order. -/
def runOps (db : Ledger) : List LedgerOp → Ledger
  | [] => db
  | op :: rest => runOps (applyOp db op) rest

/-- Ledger effect of `run_plan_mode` / `run_explore_mode` executing the
remaining `actions`: the iteration with zero-based counter `i` persists one
step with explicit index `i + 1` (the loops pass `i + 1` from `enumerate` /
`range(1, 11)`).  `actions` scripts the per-step action/result pair. -/
def planLoopLedger (db : Ledger) (i : Nat) (actions : List (String × String)) : Ledger :=
  match actions with
  | [] => db
  | a :: rest =>
    planLoopLedger (executeStepLedger db (i + 1) a.1 a.2) (i + 1) rest

/- ## Explore mode loop (plan_explore_mode.py, `run_explore_mode` /
`_execute_explore_step`)

The model keeps the parts of the Act-Reflect-Critique cycle that the loop
control reads: which action the executor chose, whether it was dispatched,
whether the observation contains the degraded-mode sentinel, and whether the
critique reported the task finished.  LLM decisions and tool observations
are scripted per step number (the environment); an external stop signal is
not modelled (no claim exercises it). -/

/-- The sentinel tested by `_execute_explore_step`
(`"No knowledge source selected" in observation`). -/
def noSourceSentinel : String := "No knowledge source selected"

/-- The environment of one explore step `i`: the action name the executor
LLM chose (`none` models a missing `action` field) and the observation its
dispatch would produce. -/
structure ActDecision where
  action : Option String
  observation : String

/-- Scripted environment of an explore run. -/
structure ExploreScript where
  decide : Nat → ActDecision
  critFinished : Nat → Bool

/-- Python truthiness test `if action and action != "none"` deciding whether
the tool is dispatched. -/
def isDispatched (a : Option String) : Bool :=
  match a with
  | none => false
  | some s => !(s = "") && !(s = "none")

/-- The in-memory state the loop control reads: the action history
(`{name, success}` entries in execution order) and the finished flag. -/
structure ExploreState where
  history : List (Option String × Bool)
  finished : Bool

/-- The `{name, success}` record appended to `context.action_history` by
step `i`: success is false exactly when the action was dispatched and its
observation contains the sentinel. -/
def stepEntry (script : ExploreScript) (i : Nat) : Option String × Bool :=
  ((script.decide i).action,
   if isDispatched (script.decide i).action &&
      strContains (script.decide i).observation noSourceSentinel then false else true)

/-- Effect of `_execute_explore_step(context, i)` on the modelled state:
dispatch the chosen action, append the history entry, and let the critique
set the finished flag. -/
def execExploreStep (script : ExploreScript) (i : Nat) (st : ExploreState) : ExploreState :=
  { history := st.history ++ [stepEntry script i],
    finished := st.finished || script.critFinished i }

/-- The update of `consecutive_failures` performed after each step from the
last history entry. -/
def nextConsec (h : List (Option String × Bool)) (consec : Nat) : Nat :=
  match h.getLast? with
  | some e => if e.2 = false then consec + 1 else 0
  | none => 0

/-- How an explore run ends. -/
inductive ExploreOutcome where
  | stuckError : ExploreOutcome
  | finishedNormally : ExploreOutcome
  | exhausted : ExploreOutcome
deriving DecidableEq

/-- The loop body of `run_explore_mode`: step counter `i`, remaining
iterations `fuel`, the `consecutive_failures` counter, and the state.  After
each step the counter is updated from the last history entry; the stuck
check precedes the finished check, as in the source. -/
def exploreGo (script : ExploreScript) : Nat → Nat → Nat → ExploreState →
    ExploreState × ExploreOutcome
  | _, 0, _, st => (st, ExploreOutcome.exhausted)
  | i, fuel + 1, consec, st =>
    let st1 := execExploreStep script i st
    let consec1 := nextConsec st1.history consec
    if 2 ≤ consec1 then (st1, ExploreOutcome.stuckError)
    else if st1.finished then (st1, ExploreOutcome.finishedNormally)
    else exploreGo script (i + 1) fuel consec1 st1

/-- Model of `run_explore_mode`: at most 10 iterations starting at step 1
with `consecutive_failures = 0` and empty history. -/
def runExploreMode (script : ExploreScript) : ExploreState × ExploreOutcome :=
  exploreGo script 1 10 0 { history := [], finished := false }

/- ## Debate mode loop (debate_mode.py, `run_debate_mode`)

The round loop appends one round per iteration while
`len(rounds) < max_rounds`; after each round it sums the pro and con scores
of all rounds so far and breaks when the absolute difference reaches the
threshold.  The judge's per-round scores are the environment, scripted by
round number. -/

/-- Sum of the pro scores minus sum of the con scores of the given rounds
(`total_pro_score - total_con_score` in the source). -/
def cumDiff (rounds : List (Int × Int)) : Int :=
  (rounds.map Prod.fst).sum - (rounds.map Prod.snd).sum

/-- Absolute value used by the early-termination check (`abs(...)`). -/
def absInt (x : Int) : Int := if x < 0 then -x else x

/-- The round loop with explicit fuel; called with `fuel = maxRounds` the
guard `rounds.length < maxRounds` and the fuel agree, so the fuel never cuts
the loop short. -/
def debateGo (script : Nat → Int × Int) (maxRounds : Nat) (threshold : Int) :
    Nat → List (Int × Int) → List (Int × Int)
  | 0, rounds => rounds
  | fuel + 1, rounds =>
    if rounds.length < maxRounds then
      let r := script (rounds.length + 1)
      let rounds1 := rounds ++ [r]
      if threshold ≤ absInt (cumDiff rounds1) then rounds1
      else debateGo script maxRounds threshold fuel rounds1
    else rounds

/-- Model of the Phase-2 round loop of `run_debate_mode`: the rounds played,
in order, given the scripted per-round scores. -/
def runDebateRounds (script : Nat → Int × Int) (maxRounds : Nat) (threshold : Int) :
    List (Int × Int) :=
  debateGo script maxRounds threshold maxRounds []

/- ## Report assembler (context.py, `_assemble_final_report`)

Text is modelled as `List Char` in this section so that "the placeholder
appears in the document" is plain list-segment reasoning.  A chapter node
models one entry of the plan tree: `chapter.get('id', '')` is an optional
id, `chapter['sub_goal']` a mandatory title, `chapter['steps']` the
children.  `research_content` maps a node id to its node dict, of which the
assembler reads only the optional `current` field, so it is modelled as an
association list from id to that optional field. -/

/-- A plan-tree node as read by the assembler. -/
inductive Chapter where
  | node (idOpt : Option (List Char)) (subGoal : List Char) (steps : List Chapter)

/-- Association-list lookup with `List Char` keys, modelling dict `get`. -/
def assocFindL {α : Type} (l : List (List Char × α)) (k : List Char) : Option α :=
  match l with
  | [] => none
  | kv :: rest => if kv.1 = k then some kv.2 else assocFindL rest k

/-- The research-content map: node id to the optional `current` text of its
node dict. -/
def ResearchMap : Type := List (List Char × Option (List Char))

/-- The missing-content placeholder emitted for a leaf with no stored
content. -/
def missingContentText : List Char :=
  "*Content for this section is missing.*\n\n".toList

/-- Python `node_content = research_content.get(id, {})` followed by
`node_content.get('current', placeholder)`. -/
def contentFor (rc : ResearchMap) (cid : List Char) : List Char :=
  match assocFindL rc cid with
  | some (some t) => t
  | some none => missingContentText
  | none => missingContentText

/-- A run of `level` hash characters, modelling `'#' * level`. -/
def hashRun (level : Nat) : List Char := List.replicate level '#'

/-- The recursive `assemble_level` closure: for each chapter emit
`"\n" + "#"*level + " " + id + " " + sub_goal + "\n\n"`, then recurse into
nonempty children or emit the leaf content. -/
def assembleLevel (rc : ResearchMap) : Nat → List Chapter → List Char
  | _, [] => []
  | level, Chapter.node idOpt subGoal steps :: rest =>
    let cid := idOpt.getD []
    let heading := '\n' :: hashRun level ++ ' ' :: cid ++ ' ' :: subGoal ++ ('\n' :: ['\n'])
    let body :=
      match steps with
      | [] => contentFor rc cid
      | s :: ss => assembleLevel rc (level + 1) (s :: ss)
    heading ++ body ++ assembleLevel rc level rest

/-- Model of `_assemble_final_report`: title line from the goal, then the
level-2 walk over the plan (the plan of write/research tasks is a list, so
the `isinstance(context.plan, list)` guard holds). -/
def assembleFinalReport (goal : List Char) (plan : List Chapter) (rc : ResearchMap) :
    List Char :=
  '#' :: ' ' :: goal ++ ('\n' :: ['\n']) ++ assembleLevel rc 2 plan

/-- Membership of a chapter anywhere in a plan forest (at the top level, in
the children of the head node, or in the remaining siblings). -/
inductive InForest (c : Chapter) : List Chapter → Prop where
  | head (d : Chapter) (rest : List Chapter) : c = d → InForest c (d :: rest)
  | child (idOpt : Option (List Char)) (sg : List Char) (steps rest : List Chapter) :
      InForest c steps → InForest c (Chapter.node idOpt sg steps :: rest)
  | tail (d : Chapter) (rest : List Chapter) : InForest c rest → InForest c (d :: rest)

/-- One list is a contiguous segment of another. -/
def SubSeg (a b : List Char) : Prop := ∃ s t, b = s ++ a ++ t

/- ## Write mode pause and resume (write_mode.py, runner.py, agent.py)

Phases 1-2 (`run_write_mode`) obtain an elaboration dict and an outline from
the model (environment inputs `E` and `P` here), attach ids/status metadata
to the outline, store the plan in the `agent_tasks` row, and set the status
to `awaiting_user_input`.  The elaboration is saved only inside a step row;
the resume path (`run_task_background` with `is_resume=True`) reads back
only `plan` and `research_content` from `agent_tasks` and takes the
elaboration exclusively from the caller-supplied `resume_payload`
(otherwise `context.elaboration` remains the empty dict from
`TaskContext.__init__`).  JSON dump/load of the plan is modelled as the
identity (the round trip preserves the value).

`resume_write_mode` is modelled as the sequence of prompts it issues
(chapter-strategy prompts, then per-leaf generation/critique/refine
prompts); each prompt constructor carries every input the corresponding
`build_writer_*_prompt` receives, and model responses come from an oracle.
Python `KeyError` accesses surface as `Except.error`. -/

/-- An outline node as returned by the Phase-2 model call. -/
structure OutlineNode where
  subGoal : String
  wordCount : Option Nat
  children : List OutlineNode

/-- An outline node after `add_metadata_to_outline`: dotted id and status. -/
structure MetaNode where
  nid : String
  subGoal : String
  wordCount : Option Nat
  nodeStatus : String
  children : List MetaNode

/-- Size bound used for termination of recursions over outline forests. -/
theorem outline_sizeOf_children_lt (n : OutlineNode) : sizeOf n.children < sizeOf n := by
  cases n
  simp

/-- Size bound used for termination of recursions over plan forests. -/
theorem meta_sizeOf_children_lt (n : MetaNode) : sizeOf n.children < sizeOf n := by
  cases n
  simp

/-- Model of `add_metadata_to_outline(nodes, prefix)`: nodes are numbered
from `i` at the current level, each gets id `prefix + str(i)` and status
`pending`, and children are processed with prefix `current_id + "."`. -/
def addMetaGo (pre : String) (i : Nat) : List OutlineNode → List MetaNode
  | [] => []
  | n :: rest =>
    let cid := pre ++ toString i
    { nid := cid, subGoal := n.subGoal, wordCount := n.wordCount,
      nodeStatus := "pending",
      children := addMetaGo (cid ++ ".") 1 n.children } :: addMetaGo pre (i + 1) rest
termination_by nodes => sizeOf nodes
decreasing_by
  all_goals simp_wf
  all_goals first
    | omega
    | (have hsz := outline_sizeOf_children_lt n
       omega)

mutual

/-- Serialization of one plan node, standing in for its `json.dumps`
rendering inside prompt text. -/
def dumpNode : MetaNode → String
  | { nid := nid, subGoal := sg, wordCount := wc, nodeStatus := st, children := cs } =>
    "[" ++ nid ++ "|" ++ sg ++ "|" ++
      (match wc with | some n => toString n | none => "-") ++ "|" ++ st ++ "|" ++
      dumpForest cs ++ "]"

/-- Serialization of a plan forest, standing in for `json.dumps(plan)`. -/
def dumpForest : List MetaNode → String
  | [] => ""
  | n :: rest => dumpNode n ++ "," ++ dumpForest rest

end

/-- The `elaboration_str` built at the top of `resume_write_mode` from
`context.elaboration['summary'/'style'/'strategy']`; a missing key is a
`KeyError`. -/
def elaborationStrResume (e : List (String × String)) : Except String String :=
  match assocFind e "summary" with
  | none => Except.error "KeyError: summary"
  | some su =>
    match assocFind e "style" with
    | none => Except.error "KeyError: style"
    | some st =>
      match assocFind e "strategy" with
      | none => Except.error "KeyError: strategy"
      | some sg =>
        Except.ok ("Summary: " ++ su ++ "\nStyle: " ++ st ++ "\nStrategy: " ++ sg)

/-- A prompt issued during phases 3-5, carrying exactly the inputs the
corresponding `build_writer_*_prompt` call receives. -/
inductive WPrompt where
  | chapterStrategy (elabStr planJson nodeTitle : String) : WPrompt
  | sectionContent (elabStr planJson chapterStrategy sectionTitle history : String)
      (wordCount : Nat) : WPrompt
  | critique (sectionTitle content elabStr planJson : String) (wordCount : Nat) : WPrompt
  | refine (sectionTitle content critiqueFeedback elabStr planJson : String) : WPrompt

/-- A parsed model response, restricted to the fields phases 3-5 read:
`data['strategy']`, `data['content']`, `critique_data.get('passed', False)`
and `critique_data.get('overall_assessment', ...)`. -/
structure WResp where
  strategy : Option String
  content : Option String
  passed : Bool
  assessment : Option String

/-- Model of `get_strategies(nodes)`: for every node with children, issue a
chapter-strategy prompt, record `data['strategy']` under the node id, then
recurse into the children, then continue with the siblings.  Returns the
strategy map and the prompt trace in issue order. -/
def getStrategiesGo (oracle : WPrompt → WResp) (es pj : String) :
    List MetaNode → Except String (List (String × String) × List WPrompt)
  | [] => Except.ok ([], [])
  | n :: rest =>
    match n.children with
    | [] => getStrategiesGo oracle es pj rest
    | _ :: _ =>
      let title := n.nid ++ " " ++ n.subGoal
      let p := WPrompt.chapterStrategy es pj title
      let r := oracle p
      match r.strategy with
      | none => Except.error "KeyError: strategy"
      | some s =>
        match getStrategiesGo oracle es pj n.children with
        | Except.error e => Except.error e
        | Except.ok (subS, subT) =>
          match getStrategiesGo oracle es pj rest with
          | Except.error e => Except.error e
          | Except.ok (restS, restT) =>
            Except.ok ((n.nid, s) :: subS ++ restS, p :: subT ++ restT)
termination_by nodes => sizeOf nodes
decreasing_by
  all_goals simp_wf
  all_goals first
    | omega
    | (have hsz := meta_sizeOf_children_lt n
       omega)

/-- Model of `collect_writing_tasks`: the leaves of the plan in document
order. -/
def collectLeaves : List MetaNode → List MetaNode
  | [] => []
  | n :: rest =>
    (if n.children.isEmpty then [n] else collectLeaves n.children) ++ collectLeaves rest
termination_by nodes => sizeOf nodes
decreasing_by
  all_goals simp_wf
  all_goals first
    | omega
    | (have hsz := meta_sizeOf_children_lt n
       omega)

/-- Model of `update_node_status`'s `find_and_update`: update the status of
the first node whose id matches, checking each node before its children and
its children before its siblings; the Bool reports whether a match was
found. -/
def setStatusNodes (sid status : String) : List MetaNode → List MetaNode × Bool
  | [] => ([], false)
  | n :: rest =>
    if n.nid = sid then ({ n with nodeStatus := status } :: rest, true)
    else
      match setStatusNodes sid status n.children with
      | (cs, true) => ({ n with children := cs } :: rest, true)
      | (_, false) =>
        match setStatusNodes sid status rest with
        | (rs, f) => (n :: rs, f)
termination_by nodes => sizeOf nodes
decreasing_by
  all_goals simp_wf
  all_goals first
    | omega
    | (have hsz := meta_sizeOf_children_lt n
       omega)

/-- The plan after `update_node_status(section_id, status)`. -/
def setStatusForest (sid status : String) (plan : List MetaNode) : List MetaNode :=
  (setStatusNodes sid status plan).1

/-- Splitting a character list on the dot separator, Python `s.split('.')`. -/
def splitOnDot : List Char → List (List Char)
  | [] => [[]]
  | c :: rest =>
    match splitOnDot rest with
    | [] => [[]]
    | g :: gs => if c = '.' then [] :: g :: gs else (c :: g) :: gs

/-- Joining groups with the dot separator, Python `".".join(groups)`. -/
def joinDots : List (List Char) → List Char
  | [] => []
  | [g] => g
  | g :: gs => g ++ '.' :: joinDots gs

/-- Python `".".join(section_id.split('.')[:-1])`. -/
def parentIdOf (s : String) : String :=
  String.mk (joinDots ((splitOnDot s.toList).dropLast))

/-- The critique-refine loop of `_call_llm_with_critique_and_refine` (cap
`MAX_REFINE_ITERATIONS = 10`): each iteration builds the critique prompt
from `current_content['content']` (a `KeyError` if absent), returns the
current draft if the critique passed, and otherwise builds a refine prompt
from `overall_assessment` and continues with the refined draft; an
exhausted loop returns the last draft. -/
def critRefine (oracle : WPrompt → WResp) (es pj title : String) (wc : Nat) :
    Nat → WResp → Except String (WResp × List WPrompt)
  | 0, cur => Except.ok (cur, [])
  | fuel + 1, cur =>
    match cur.content with
    | none => Except.error "KeyError: content"
    | some ctext =>
      let cp := WPrompt.critique title ctext es pj wc
      let cr := oracle cp
      if cr.passed then Except.ok (cur, [cp])
      else
        let fb := cr.assessment.getD "No feedback provided."
        let rp := WPrompt.refine title ctext fb es pj
        let rr := oracle rp
        match critRefine oracle es pj title wc fuel rr with
        | Except.error e => Except.error e
        | Except.ok (fin, tr) => Except.ok (fin, cp :: rp :: tr)

/-- Phase 4-5 per-leaf loop of `resume_write_mode`: set the node status to
`writing`, build the generation prompt from the current plan dump, the
parent chapter strategy (falling back to the elaboration string), the
running history and the word-count budget, run the critique-refine loop,
read `final_data['content']`, append to the history, and mark the node
`completed` before the next leaf. -/
def writeLeavesGo (oracle : WPrompt → WResp) (es : String)
    (strats : List (String × String)) :
    List MetaNode → List MetaNode → String → Except String (List WPrompt × List MetaNode)
  | [], plan, _ => Except.ok ([], plan)
  | leaf :: rest, plan, history =>
    let title := leaf.nid ++ " " ++ leaf.subGoal
    let plan1 := setStatusForest leaf.nid "writing" plan
    let strat := (assocFind strats (parentIdOf leaf.nid)).getD es
    let wc := leaf.wordCount.getD 0
    let gp := WPrompt.sectionContent es (dumpForest plan1) strat title history wc
    match critRefine oracle es (dumpForest plan1) title wc 10 (oracle gp) with
    | Except.error e => Except.error e
    | Except.ok (fin, tr) =>
      match fin.content with
      | none => Except.error "KeyError: content"
      | some refined =>
        let plan2 := setStatusForest leaf.nid "completed" plan1
        let history2 := history ++ "## " ++ title ++ "\n\n" ++ refined ++ "\n\n"
        match writeLeavesGo oracle es strats rest plan2 history2 with
        | Except.error e => Except.error e
        | Except.ok (trs, planF) => Except.ok (gp :: tr ++ trs, planF)

/-- Model of `resume_write_mode(context)`: the elaboration string, the
chapter-strategy pass over the plan, then the per-leaf content pass; the
result is the full prompt trace in issue order. -/
def resumeWriteMode (oracle : WPrompt → WResp) (ed : List (String × String))
    (plan : List MetaNode) : Except String (List WPrompt) :=
  match elaborationStrResume ed with
  | Except.error e => Except.error e
  | Except.ok es =>
    match getStrategiesGo oracle es (dumpForest plan) plan with
    | Except.error e => Except.error e
    | Except.ok (strats, trace1) =>
      match writeLeavesGo oracle es strats (collectLeaves plan) plan "" with
      | Except.error e => Except.error e
      | Except.ok (trace2, _) => Except.ok (trace1 ++ trace2)

/-- The persisted and in-memory state when `run_write_mode` pauses. -/
structure PausedTask where
  ctxElaboration : List (String × String)
  ctxPlan : List MetaNode
  dbPlan : Option (List MetaNode)
  dbStatus : String

/-- Effect of phases 1-3 of `run_write_mode` given the model-produced
elaboration dict `E` and outline `P`: metadata is attached to the outline,
the plan is written to the `agent_tasks` row and the status becomes
`awaiting_user_input`.  The elaboration is persisted only inside a step-
ledger row, which the resume path never reads, so it has no field here. -/
def runWritePhases (E : List (String × String)) (P : List OutlineNode) : PausedTask :=
  let metaPlan := addMetaGo "" 1 P
  { ctxElaboration := E, ctxPlan := metaPlan,
    dbPlan := some metaPlan, dbStatus := "awaiting_user_input" }

/-- The optional `resume_payload` of `run_task_background`; the
`/resume-write-task` endpoint always sends both a plan and an elaboration. -/
structure ResumePayload where
  plan : List MetaNode
  elaboration : List (String × String)

/-- The context fields `resume_write_mode` reads. -/
structure RebuiltCtx where
  plan : List MetaNode
  elaboration : List (String × String)

/-- Model of the resume branch of `run_task_background`: the plan comes from
the payload when present, else from the stored `agent_tasks.plan`; the
elaboration comes only from the payload, else it stays the empty dict of
`TaskContext.__init__`. -/
def rebuildContext (db : PausedTask) (payload : Option ResumePayload) : RebuiltCtx :=
  match payload with
  | some pl => { plan := pl.plan, elaboration := pl.elaboration }
  | none => { plan := db.dbPlan.getD [], elaboration := [] }

/- ## Robust JSON extraction (context.py, `_call_llm_with_retry`)

The extraction pipeline works on `List Char`.  `_clean_unicode_string`
re-encodes through a lossy byte round trip to drop surrogate code points; a
Lean `Char` is always a valid scalar value, so that step is the identity on
every representable input and has no separate model.  `json.loads` is
modelled by a recursive-descent parser over the JSON fragment the code
exchanges (objects, arrays, strings with single-character escapes, integer
numbers, literals); the regex
`r"```json\s*(\{.*?\})\s*```|(\{.*?\})"` with `re.DOTALL` is modelled by a
leftmost search that tries the fenced alternative before the bare one and
grows the non-greedy group to the first closing brace whose continuation
matches. -/

/-- The whitespace class of Python `str.strip` and of the regex `\s`. -/
def pyWs (c : Char) : Bool :=
  c = ' ' || c = '\t' || c = '\n' || c = '\r' || c = '\x0b' || c = '\x0c'

/-- JSON inter-token whitespace accepted by `json.loads`. -/
def jsonWsChar (c : Char) : Bool :=
  c = ' ' || c = '\t' || c = '\n' || c = '\r'

/-- Drops leading JSON whitespace. -/
def skipJsonWs (cs : List Char) : List Char := cs.dropWhile jsonWsChar

/-- Python `str.strip()`. -/
def pyStrip (cs : List Char) : List Char :=
  ((cs.dropWhile pyWs).reverse.dropWhile pyWs).reverse

/-- Decides the decimal digits. -/
def isDigitChar (c : Char) : Bool := '0' ≤ c && c ≤ '9'

/-- Numeric value of a decimal digit. -/
def digitVal (c : Char) : Nat := c.toNat - 48

/-- Consumes a maximal run of digits, accumulating their value. -/
def parseDigitsGo : List Char → Nat → Nat × List Char
  | [], acc => (acc, [])
  | c :: rest, acc =>
    if isDigitChar c then parseDigitsGo rest (acc * 10 + digitVal c) else (acc, c :: rest)

/-- Parses a nonempty digit run into a number. -/
def parseNatNum : List Char → Option (Nat × List Char)
  | [] => none
  | c :: rest =>
    if isDigitChar c then some (parseDigitsGo (c :: rest) 0) else none

/-- Single-character JSON string escapes (`\uXXXX` escapes are outside the
modelled fragment and fail the parse). -/
def escapeChar : Char → Option Char
  | '"' => some '"'
  | '\\' => some '\\'
  | '/' => some '/'
  | 'b' => some '\x08'
  | 'f' => some '\x0c'
  | 'n' => some '\n'
  | 'r' => some '\r'
  | 't' => some '\t'
  | _ => none

/-- Parses the body of a JSON string after the opening quote. -/
def parseStrBody : List Char → List Char → Option (String × List Char)
  | [], _ => none
  | '"' :: rest, acc => some (String.mk acc.reverse, rest)
  | '\\' :: rest, acc =>
    match rest with
    | [] => none
    | e :: rest2 =>
      match escapeChar e with
      | some c => parseStrBody rest2 (c :: acc)
      | none => none
  | c :: rest, acc => parseStrBody rest (c :: acc)

mutual

/-- Parses one JSON value after skipping leading whitespace; the fuel
dominates the nesting depth. -/
def parseVal : Nat → List Char → Option (Json × List Char)
  | 0, _ => none
  | fuel + 1, cs =>
    match skipJsonWs cs with
    | [] => none
    | c :: rest =>
      if c = '\x7b' then parseObjBody fuel rest
      else if c = '[' then parseArrBody fuel rest
      else if c = '"' then
        match parseStrBody rest [] with
        | some (s, r) => some (Json.str s, r)
        | none => none
      else if c = 't' then
        if rest.take 3 = ['r', 'u', 'e'] then some (Json.bool true, rest.drop 3) else none
      else if c = 'f' then
        if rest.take 4 = ['a', 'l', 's', 'e'] then some (Json.bool false, rest.drop 4) else none
      else if c = 'n' then
        if rest.take 3 = ['u', 'l', 'l'] then some (Json.null, rest.drop 3) else none
      else if c = '-' then
        match parseNatNum rest with
        | some (n, r) => some (Json.num (-(n : Int)), r)
        | none => none
      else if isDigitChar c then
        match parseNatNum (c :: rest) with
        | some (n, r) => some (Json.num (n : Int), r)
        | none => none
      else none

/-- Parses an object body after the opening brace. -/
def parseObjBody : Nat → List Char → Option (Json × List Char)
  | 0, _ => none
  | fuel + 1, cs =>
    match skipJsonWs cs with
    | '\x7d' :: rest => some (Json.obj [], rest)
    | _ => parseMembers fuel cs []

/-- Parses the nonempty member list of an object. -/
def parseMembers : Nat → List Char → List (String × Json) → Option (Json × List Char)
  | 0, _, _ => none
  | fuel + 1, cs, acc =>
    match skipJsonWs cs with
    | '"' :: rest =>
      match parseStrBody rest [] with
      | none => none
      | some (k, r1) =>
        match skipJsonWs r1 with
        | ':' :: r2 =>
          match parseVal fuel r2 with
          | none => none
          | some (v, r3) =>
            match skipJsonWs r3 with
            | ',' :: r4 => parseMembers fuel r4 (acc ++ [(k, v)])
            | '\x7d' :: r4 => some (Json.obj (acc ++ [(k, v)]), r4)
            | _ => none
        | _ => none
    | _ => none

/-- Parses an array body after the opening bracket. -/
def parseArrBody : Nat → List Char → Option (Json × List Char)
  | 0, _ => none
  | fuel + 1, cs =>
    match skipJsonWs cs with
    | ']' :: rest => some (Json.arr [], rest)
    | _ => parseItems fuel cs []

/-- Parses the nonempty item list of an array. -/
def parseItems : Nat → List Char → List Json → Option (Json × List Char)
  | 0, _, _ => none
  | fuel + 1, cs, acc =>
    match parseVal fuel cs with
    | none => none
    | some (v, r1) =>
      match skipJsonWs r1 with
      | ',' :: r2 => parseItems fuel r2 (acc ++ [v])
      | ']' :: r2 => some (Json.arr (acc ++ [v]), r2)
      | _ => none

end

/-- Model of `json.loads`: a full parse of the input with only trailing
whitespace allowed. -/
def jsonLoads (cs : List Char) : Option Json :=
  match parseVal (cs.length + 1) cs with
  | some (j, rest) => if skipJsonWs rest = [] then some j else none
  | none => none

/-- The reasoning-marker delimiter. -/
def thinkMarker : List Char := ['<', '/', 't', 'h', 'i', 'n', 'k', '>']

/-- The text after the last occurrence of the reasoning marker, when the
marker occurs at all (later occurrences are preferred). -/
def afterMarkerOpt : List Char → Option (List Char)
  | [] => none
  | c :: rest =>
    match afterMarkerOpt rest with
    | some t => some t
    | none =>
      if isPrefixList thinkMarker (c :: rest) then some ((c :: rest).drop 8) else none

/-- Model of the marker step: Python
`s.split("</think>")[-1] if "</think>" in s else s`. -/
def splitThink (cs : List Char) : List Char :=
  match afterMarkerOpt cs with
  | some t => t
  | none => cs

/-- The characters of a closing code fence. -/
def fenceChars : List Char := ['`', '`', '`']

/-- The characters of the opening fence of the first regex alternative. -/
def fenceJsonChars : List Char := ['`', '`', '`', 'j', 's', 'o', 'n']

/-- The continuation `\s*` then three backticks required after the group of
the fenced alternative (greedy whitespace with backtracking degenerates to
skip-all-whitespace because no whitespace character is a backtick). -/
def fenceCont (cs : List Char) : Bool :=
  isPrefixList fenceChars (cs.dropWhile pyWs)

/-- The non-greedy group body `.*?\}` under continuation `cont`: the scan
stops at the first closing brace whose continuation matches, returning the
consumed characters (closing brace included) and the remainder. -/
def minBraceScan (cont : List Char → Bool) : List Char → Option (List Char × List Char)
  | [] => none
  | c :: rest =>
    if c = '\x7d' && cont rest then some ([c], rest)
    else
      match minBraceScan cont rest with
      | some (g, r) => some (c :: g, r)
      | none => none

/-- The fenced alternative at the current position. -/
def tryAlt1 (cs : List Char) : Option (List Char) :=
  if isPrefixList fenceJsonChars cs then
    match (cs.drop 7).dropWhile pyWs with
    | '\x7b' :: rest =>
      match minBraceScan fenceCont rest with
      | some (g, _) => some ('\x7b' :: g)
      | none => none
    | _ => none
  else none

/-- The bare brace-delimited alternative at the current position. -/
def tryAlt2 : List Char → Option (List Char)
  | [] => none
  | c :: rest =>
    if c = '\x7b' then
      match minBraceScan (fun _ => true) rest with
      | some (g, _) => some ('\x7b' :: g)
      | none => none
    else none

/-- Model of `re.search` for the extraction pattern: positions are tried
left to right and the fenced alternative is tried before the bare one. -/
def regexSearch : List Char → Option (List Char)
  | [] => none
  | c :: rest =>
    match tryAlt1 (c :: rest) with
    | some g => some g
    | none =>
      match tryAlt2 (c :: rest) with
      | some g => some g
      | none => regexSearch rest

/-- Index of the first occurrence of a character, Python `str.find`. -/
def firstIdxOf (cs : List Char) (c : Char) : Option Nat :=
  cs.findIdx? (fun x => x = c)

/-- Index of the last occurrence of a character, Python `str.rfind`. -/
def lastIdxOf (cs : List Char) (c : Char) : Option Nat :=
  match cs.reverse.findIdx? (fun x => x = c) with
  | some k => some (cs.length - 1 - k)
  | none => none

/-- The last-resort step: parse the slice between the first opening brace
and the last closing brace when both exist (an empty or ill-formed slice
fails like any other parse failure). -/
def braceSliceParse (cs : List Char) : Option Json :=
  match firstIdxOf cs '\x7b', lastIdxOf cs '\x7d' with
  | some s, some e => jsonLoads ((cs.drop s).take (e + 1 - s))
  | _, _ => none

/-- The JSON extraction routine of `_call_llm_with_retry`, applied to one
response text: marker split, direct parse of the stripped text, regex
search (an invalid captured group falls through), then the brace slice;
`none` models the `JSONDecodeError` that triggers a retry. -/
def extractJson (cs : List Char) : Option Json :=
  let t := splitThink cs
  match jsonLoads (pyStrip t) with
  | some j => some j
  | none =>
    match regexSearch t with
    | some g =>
      match jsonLoads g with
      | some j => some j
      | none => braceSliceParse t
    | none => braceSliceParse t

/- ## Theorems for the claims -/

/-- C8 counterexample: the claim says that with no conclusion the tool
returns the concatenation of all accumulated step results, for every
invocation.  With an empty conclusion and an empty result list the code
returns a fixed completion message instead of the (empty) concatenation, so
the claim as stated is false at this input. -/
theorem C8_finish_counterexample :
    (toolFinishTask { stepResults := [], isFinished := false } "").1 ≠
      String.intercalate "\n\n" ([] : List String) := by
  decide

/-- C8 (amended): `_tool_finish_task` returns the supplied conclusion when
it is nonempty, otherwise the blank-line-joined concatenation of the
accumulated step results when there are any, and otherwise a fixed
completion message; in every case the task context — in particular its
finished flag — is left unchanged. -/
theorem C8_finish_amended (ctx : FinishCtx) (conclusion : String) :
    (toolFinishTask ctx conclusion).2 = ctx ∧
    (conclusion ≠ "" → (toolFinishTask ctx conclusion).1 = conclusion) ∧
    (conclusion = "" → ctx.stepResults ≠ [] →
      (toolFinishTask ctx conclusion).1 = String.intercalate "\n\n" ctx.stepResults) ∧
    (conclusion = "" → ctx.stepResults = [] →
      (toolFinishTask ctx conclusion).1 = noConclusionMsg) := by
  refine ⟨?_, ?_, ?_, ?_⟩
  · by_cases h1 : conclusion = "" <;> by_cases h2 : ctx.stepResults.isEmpty <;>
      simp [toolFinishTask, h1, h2]
  · intro h1
    by_cases h2 : ctx.stepResults.isEmpty <;> simp [toolFinishTask, h1, h2]
  · intro h1 h2
    simp [toolFinishTask, h1, h2]
  · intro h1 h2
    simp [toolFinishTask, h1, h2]

/-- Closed witness for `C8_finish_amended` at a concrete context. -/
theorem C8_finish_amended_witness :
    (toolFinishTask { stepResults := ["r1"], isFinished := false } "done").1 = "done" :=
  (C8_finish_amended { stepResults := ["r1"], isFinished := false } "done").2.1 (by decide)

/-- C10: when the supplied conclusion is the empty string and the
accumulated step-result list is empty, `_tool_finish_task` returns the
fixed completion message (a third observable branch beyond
conclusion-or-concatenation), and still leaves the context unchanged. -/
theorem C10_finish_empty (ctx : FinishCtx) (h : ctx.stepResults = []) :
    (toolFinishTask ctx "").1 =
      "The task is complete, but no conclusion was provided and no results were generated." ∧
    (toolFinishTask ctx "").2 = ctx := by
  constructor
  · simp [toolFinishTask, h, noConclusionMsg]
  · simp [toolFinishTask, h]

/-- Closed witness for `C10_finish_empty`. -/
theorem C10_finish_empty_witness :
    (toolFinishTask { stepResults := [], isFinished := false } "").1 =
      "The task is complete, but no conclusion was provided and no results were generated." :=
  (C10_finish_empty { stepResults := [], isFinished := false } rfl).1

/-- C2 counterexample: the claim says every persisted step wrapping a model
call creates exactly one row (in `running` status) and updates that same
row in place to `completed`.  `_call_llm_and_save` — the wrapper used by
the debate and research modes — instead inserts a second row for the
completion and never updates the first: from an empty ledger one wrapped
call leaves two rows, the first still in `running` status. -/
theorem C2_lifecycle_counterexample :
    ((callLlmAndSave { rows := [], nextId := 0 } "Phase 1" "data" 0).rows.map
        (fun r => (r.stepIndex, r.status)) = [(1, "running"), (2, "completed")]) ∧
    ¬ (callLlmAndSave { rows := [], nextId := 0 } "Phase 1" "data" 0).rows.length = 1 := by
  decide

/-- C2 (amended): two distinct persistence patterns exist.  Steps persisted
through `_call_llm_and_save` append a `running` row before the call and a
second, fresh `completed` row after it, leaving the `running` row in place.
Steps persisted by `_execute_plan_step` / `_execute_explore_step` insert one
`running` row and then update that same row in place to `completed`, so
they end with exactly one row, as the claim describes. -/
theorem C2_lifecycle_amended (db : Ledger) (action data result : String)
    (retries stepIndex : Nat) (hfresh : ∀ r ∈ db.rows, r.rowId < db.nextId) :
    ((callLlmAndSave db action data retries).rows =
      db.rows ++
        [{ rowId := db.nextId, stepIndex := db.rows.length + 1, action := action,
           status := "running", result := "" },
         { rowId := db.nextId + 1, stepIndex := db.rows.length + 2, action := action,
           status := "completed", result := data }]) ∧
    ((executeStepLedger db stepIndex action result).rows =
      db.rows ++
        [{ rowId := db.nextId, stepIndex := stepIndex, action := action,
           status := "completed", result := result }]) := by
  constructor
  · simp [callLlmAndSave, saveStep]
  · have hold : db.rows.map
        (fun r => if r.rowId = db.nextId then
          { r with status := "completed", action := action, result := result } else r) =
        db.rows := by
      conv_rhs => rw [← List.map_id db.rows]
      apply List.map_congr_left
      intro r hr
      have := hfresh r hr
      simp [Nat.ne_of_lt this]
    simp [executeStepLedger, insertRunningStep, completeStepById, hold]

/-- Closed witness for `C2_lifecycle_amended` on an empty ledger. -/
theorem C2_lifecycle_amended_witness :
    ((callLlmAndSave { rows := [], nextId := 0 } "act" "d" 3).rows =
      [{ rowId := 0, stepIndex := 1, action := "act", status := "running", result := "" },
       { rowId := 1, stepIndex := 2, action := "act", status := "completed", result := "d" }]) ∧
    ((executeStepLedger { rows := [], nextId := 0 } 1 "act" "r").rows =
      [{ rowId := 0, stepIndex := 1, action := "act", status := "completed", result := "r" }]) :=
  C2_lifecycle_amended { rows := [], nextId := 0 } "act" "d" "r" 3 1 (by simp)

/-- Index invariant of a ledger: the persisted indices are exactly
`1, 2, ..., n` in order. -/
def IndicesOk (db : Ledger) : Prop :=
  db.rows.map StepRow.stepIndex = List.range' 1 db.rows.length

/-- A count-based insert extends the `1..n` index sequence to `1..n+1`. -/
theorem saveStep_indicesOk (db : Ledger) (a r s : String) (h : IndicesOk db) :
    IndicesOk (saveStep db a r s) := by
  unfold IndicesOk at h ⊢
  simp [saveStep, h, List.range'_concat]
  omega

/-- The in-place completion update does not change any step index. -/
theorem completeStepById_indexMap (db : Ledger) (rid : Nat) (a r : String) :
    (completeStepById db rid a r).rows.map StepRow.stepIndex =
      db.rows.map StepRow.stepIndex := by
  simp only [completeStepById, List.map_map]
  apply List.map_congr_left
  intro x _
  simp only [Function.comp]
  split <;> rfl

/-- Any run of count-based saves and call-and-save wrappers preserves the
index invariant. -/
theorem runOps_indicesOk (ops : List LedgerOp) :
    ∀ db : Ledger, IndicesOk db → IndicesOk (runOps db ops) := by
  induction ops with
  | nil => intro db h; exact h
  | cons op rest ih =>
    intro db h
    cases op with
    | save a r => exact ih _ (saveStep_indicesOk db a r "completed" h)
    | callSave a d retries =>
      exact ih _ (saveStep_indicesOk _ a d "completed" (saveStep_indicesOk db a "" "running" h))

/-- The plan/explore loop preserves the index invariant provided the loop
counter agrees with the number of persisted rows (true from the start of a
fresh task, since every iteration persists exactly one row). -/
theorem planLoopLedger_indicesOk (actions : List (String × String)) :
    ∀ (db : Ledger) (i : Nat), db.rows.length = i → IndicesOk db →
      IndicesOk (planLoopLedger db i actions) ∧
      (planLoopLedger db i actions).rows.length = i + actions.length := by
  induction actions with
  | nil => intro db i hlen h; exact ⟨h, by simp [planLoopLedger, hlen]⟩
  | cons a rest ih =>
    intro db i hlen h
    have hmap : (executeStepLedger db (i + 1) a.1 a.2).rows.map StepRow.stepIndex =
        List.range' 1 (i + 1) := by
      rw [executeStepLedger, completeStepById_indexMap]
      unfold IndicesOk at h
      simp [insertRunningStep, h, hlen, List.range'_concat]
      omega
    have hlen1 : (executeStepLedger db (i + 1) a.1 a.2).rows.length = i + 1 := by
      simp [executeStepLedger, completeStepById, insertRunningStep, hlen]
    have hok : IndicesOk (executeStepLedger db (i + 1) a.1 a.2) := by
      unfold IndicesOk
      rw [hmap, hlen1]
    have := ih (executeStepLedger db (i + 1) a.1 a.2) (i + 1) hlen1 hok
    constructor
    · exact (by simpa [planLoopLedger] using this.1)
    · have h2 := this.2
      simp only [planLoopLedger]
      simp only [List.length_cons]
      omega

/-- C3: for a single task run starting from an empty step table, the
persisted step indices form exactly the sequence `1, 2, ..., n` — for every
mix of count-based saves and `_call_llm_and_save` wrappers (first conjunct;
the `retries` argument of each wrapper is arbitrary because the Robust
Invoker retry loop writes no rows), and for the plan/explore loops that pass
the explicit index `i + 1` and update each row in place (second
conjunct). -/
theorem C3_step_indices :
    (∀ ops : List LedgerOp,
      (runOps { rows := [], nextId := 0 } ops).rows.map StepRow.stepIndex =
        List.range' 1 (runOps { rows := [], nextId := 0 } ops).rows.length) ∧
    (∀ actions : List (String × String),
      (planLoopLedger { rows := [], nextId := 0 } 0 actions).rows.map StepRow.stepIndex =
        List.range' 1 (planLoopLedger { rows := [], nextId := 0 } 0 actions).rows.length) := by
  constructor
  · intro ops
    exact runOps_indicesOk ops { rows := [], nextId := 0 } (by simp [IndicesOk])
  · intro actions
    exact (planLoopLedger_indicesOk actions { rows := [], nextId := 0 } 0 (by simp)
      (by simp [IndicesOk])).1

/-- C5: tool dispatch safety.  (1) An action name outside the registry
yields the descriptive invalid-tool error and the tool function is never
invoked; (2) a non-object argument payload is rejected before any
invocation; (3) a registered action either gets invoked or fails with an
error naming a missing no-default parameter; (4) whenever a tool is
invoked, every no-default parameter has a value in the final keyword
arguments (so a missing required parameter always prevents invocation);
(5) supplied arguments the tool does not declare are silently ignored:
filtering them away does not change the dispatch outcome. -/
theorem C5_dispatch_safety (action : String) (input : Json) :
    (assocFind toolRegistry action = none →
      dispatchToolCall action input =
        DispatchOut.err ("Executor LLM chose an invalid tool: " ++ action) ∧
      ∀ t kw, dispatchToolCall action input ≠ DispatchOut.invoked t kw) ∧
    ((∀ kvs, input ≠ Json.obj kvs) →
      ∀ t kw, dispatchToolCall action input ≠ DispatchOut.invoked t kw) ∧
    (∀ t kvs, assocFind toolRegistry action = some t →
      (∃ kw, dispatchToolCall action (Json.obj kvs) = DispatchOut.invoked t kw) ∨
      (∃ p, p ∈ toolParams t ∧ p.2 = false ∧
        dispatchToolCall action (Json.obj kvs) =
          DispatchOut.err ("Tool " ++ action ++ " is missing required parameter: " ++ p.1))) ∧
    (∀ t kw, dispatchToolCall action input = DispatchOut.invoked t kw →
      ∀ p ∈ toolParams t, p.2 = false → (assocFind kw p.1).isSome) ∧
    (∀ t kvs, assocFind toolRegistry action = some t →
      dispatchToolCall action (Json.obj kvs) =
        dispatchToolCall action
          (Json.obj (kvs.filter (fun kv => ((toolParams t).map Prod.fst).contains kv.1)))) := by
  refine ⟨?_, ?_, ?_, ?_, ?_⟩
  · intro h
    constructor
    · simp [dispatchToolCall, h]
    · intro t kw
      simp [dispatchToolCall, h]
  · intro h t kw
    cases hl : assocFind toolRegistry action with
    | none => simp [dispatchToolCall, hl]
    | some t2 =>
      cases input with
      | obj kvs => exact absurd rfl (h kvs)
      | null => simp [dispatchToolCall, hl]
      | bool b => simp [dispatchToolCall, hl]
      | num n => simp [dispatchToolCall, hl]
      | str s => simp [dispatchToolCall, hl]
      | arr items => simp [dispatchToolCall, hl]
  · intro t kvs hl
    simp only [dispatchToolCall, hl]
    cases hf : ((toolParams t).find? (fun p =>
        !p.2 && (assocFind (buildKwargs t kvs) p.1).isNone)) with
    | some p =>
      right
      refine ⟨p, List.mem_of_find?_eq_some hf, ?_, ?_⟩
      · have := List.find?_some hf
        simp at this
        exact this.1
      · simp [hf]
    | none =>
      left
      refine ⟨buildKwargs t kvs, ?_⟩
      simp [hf]
  · intro t kw hinv p hp hpd
    revert hinv
    cases hl : assocFind toolRegistry action with
    | none => simp [dispatchToolCall, hl]
    | some t2 =>
      cases input with
      | obj kvs =>
        simp only [dispatchToolCall, hl]
        cases hf : ((toolParams t2).find? (fun q =>
            !q.2 && (assocFind (buildKwargs t2 kvs) q.1).isNone)) with
        | some q => simp [hf]
        | none =>
          simp only [hf]
          intro hinv
          have ht : t2 = t := (DispatchOut.invoked.inj hinv).1
          have hkw := (DispatchOut.invoked.inj hinv).2
          subst ht
          have hnone := List.find?_eq_none.mp hf p hp
          simp [hpd] at hnone
          rw [← hkw, Option.isSome_iff_ne_none]
          exact hnone
      | null => simp [dispatchToolCall, hl]
      | bool b => simp [dispatchToolCall, hl]
      | num n => simp [dispatchToolCall, hl]
      | str s => simp [dispatchToolCall, hl]
      | arr items => simp [dispatchToolCall, hl]
  · intro t kvs hl
    have hff : (kvs.filter (fun kv => ((toolParams t).map Prod.fst).contains kv.1)).filter
        (fun kv => ((toolParams t).map Prod.fst).contains kv.1) =
        kvs.filter (fun kv => ((toolParams t).map Prod.fst).contains kv.1) := by
      rw [List.filter_filter]
      apply List.filter_congr
      intro x _
      simp
    have hb : buildKwargs t (kvs.filter
        (fun kv => ((toolParams t).map Prod.fst).contains kv.1)) = buildKwargs t kvs := by
      simp only [buildKwargs, hff]
    simp only [dispatchToolCall, hl, hb]

/-- Closed witness for `C5_dispatch_safety`: the unknown-action branch at a
concrete call and the missing-parameter alternative for `finish_task` with
an empty payload. -/
theorem C5_dispatch_safety_witness :
    (dispatchToolCall "bogus" (Json.obj []) =
      DispatchOut.err ("Executor LLM chose an invalid tool: " ++ "bogus") ∧
      ∀ t kw, dispatchToolCall "bogus" (Json.obj []) ≠ DispatchOut.invoked t kw) ∧
    ((∃ kw, dispatchToolCall "finish_task" (Json.obj []) =
        DispatchOut.invoked ToolName.finishTaskTool kw) ∨
    (∃ p, p ∈ toolParams ToolName.finishTaskTool ∧ p.2 = false ∧
      dispatchToolCall "finish_task" (Json.obj []) =
        DispatchOut.err ("Tool " ++ "finish_task" ++ " is missing required parameter: " ++ p.1))) :=
  ⟨(C5_dispatch_safety "bogus" (Json.obj [])).1 rfl,
   (C5_dispatch_safety "finish_task" (Json.obj [])).2.2.1 ToolName.finishTaskTool [] rfl⟩

/-- Full characterization of the debate round loop, by induction on the
remaining fuel: the played rounds never exceed `max_rounds`, every proper
nonempty prefix was below the threshold (the loop stopped as soon as the
cumulative difference reached it), an early stop implies the final
cumulative difference reached the threshold, and round `k` carries the
scripted scores of round `k`. -/
theorem debateGo_spec (script : Nat → Int × Int) (maxR : Nat) (thr : Int) :
    ∀ (fuel : Nat) (rounds : List (Int × Int)),
      rounds.length + fuel = maxR →
      (∀ k, k < rounds.length → rounds[k]? = some (script (k + 1))) →
      (∀ m, 1 ≤ m → m ≤ rounds.length → absInt (cumDiff (rounds.take m)) < thr) →
      (debateGo script maxR thr fuel rounds).length ≤ maxR ∧
      (∀ m, 1 ≤ m → m < (debateGo script maxR thr fuel rounds).length →
        absInt (cumDiff ((debateGo script maxR thr fuel rounds).take m)) < thr) ∧
      ((debateGo script maxR thr fuel rounds).length < maxR →
        thr ≤ absInt (cumDiff (debateGo script maxR thr fuel rounds))) ∧
      (∀ k, k < (debateGo script maxR thr fuel rounds).length →
        (debateGo script maxR thr fuel rounds)[k]? = some (script (k + 1))) := by
  intro fuel
  induction fuel with
  | zero =>
    intro rounds hlen hget hpre
    have hr : debateGo script maxR thr 0 rounds = rounds := rfl
    rw [hr]
    refine ⟨by omega, fun m h1 h2 => hpre m h1 (by omega), fun h => absurd h (by omega), hget⟩
  | succ fuel ih =>
    intro rounds hlen hget hpre
    have hguard : rounds.length < maxR := by omega
    have hget1 : ∀ k, k < (rounds ++ [script (rounds.length + 1)]).length →
        (rounds ++ [script (rounds.length + 1)])[k]? = some (script (k + 1)) := by
      intro k hk
      rcases Nat.lt_or_ge k rounds.length with hk2 | hk2
      · rw [List.getElem?_append_left hk2]
        exact hget k hk2
      · have hkeq : k = rounds.length := by
          simp at hk
          omega
        subst hkeq
        simp
    by_cases hstop : thr ≤ absInt (cumDiff (rounds ++ [script (rounds.length + 1)]))
    · have hr : debateGo script maxR thr (fuel + 1) rounds =
          rounds ++ [script (rounds.length + 1)] := by
        simp only [debateGo, if_pos hguard, if_pos hstop]
      rw [hr]
      refine ⟨by simp; omega, ?_, fun _ => hstop, hget1⟩
      intro m h1 h2
      simp at h2
      have hm : m ≤ rounds.length := by omega
      rw [List.take_append_of_le_length hm]
      exact hpre m h1 hm
    · have hr : debateGo script maxR thr (fuel + 1) rounds =
          debateGo script maxR thr fuel (rounds ++ [script (rounds.length + 1)]) := by
        simp only [debateGo, if_pos hguard, if_neg hstop]
      have hpre1 : ∀ m, 1 ≤ m → m ≤ (rounds ++ [script (rounds.length + 1)]).length →
          absInt (cumDiff ((rounds ++ [script (rounds.length + 1)]).take m)) < thr := by
        intro m h1 h2
        simp at h2
        rcases Nat.lt_or_ge m (rounds.length + 1) with hm | hm
        · have hm2 : m ≤ rounds.length := by omega
          rw [List.take_append_of_le_length hm2]
          exact hpre m h1 hm2
        · have hmeq : m = rounds.length + 1 := by omega
          subst hmeq
          have htake : (rounds ++ [script (rounds.length + 1)]).take (rounds.length + 1) =
              rounds ++ [script (rounds.length + 1)] :=
            List.take_of_length_le (by simp)
          rw [htake]
          omega
      rw [hr]
      exact ih (rounds ++ [script (rounds.length + 1)]) (by simp; omega) hget1 hpre1

/-- C7: after every round the cumulative pro/con sums are compared and the
loop stops as soon as their absolute difference reaches the threshold —
for every script, the played rounds never exceed `max_rounds`, every proper
nonempty prefix of rounds was still below the threshold, stopping early
means the threshold was reached, and round `k` carries the scripted scores;
in particular, with per-round scores (5,0) and threshold 8 under the
default `max_rounds = 8`, exactly the first two rounds are played. -/
theorem C7_debate_termination :
    (∀ (script : Nat → Int × Int) (maxR : Nat) (thr : Int),
      (runDebateRounds script maxR thr).length ≤ maxR ∧
      (∀ m, 1 ≤ m → m < (runDebateRounds script maxR thr).length →
        absInt (cumDiff ((runDebateRounds script maxR thr).take m)) < thr) ∧
      ((runDebateRounds script maxR thr).length < maxR →
        thr ≤ absInt (cumDiff (runDebateRounds script maxR thr))) ∧
      (∀ k, k < (runDebateRounds script maxR thr).length →
        (runDebateRounds script maxR thr)[k]? = some (script (k + 1)))) ∧
    runDebateRounds (fun _ => ((5 : Int), (0 : Int))) 8 8 = [(5, 0), (5, 0)] := by
  constructor
  · intro script maxR thr
    exact debateGo_spec script maxR thr maxR [] (by simp) (by simp)
      (by intro m h1 h2; simp at h2; omega)
  · decide

/-- Closed witness for `C7_debate_termination`: with the (5,0) script the
round-1 prefix is still below the threshold while the loop plays exactly
two rounds. -/
theorem C7_debate_termination_witness :
    absInt (cumDiff ((runDebateRounds (fun _ => ((5 : Int), (0 : Int))) 8 8).take 1)) < 8 :=
  (C7_debate_termination.1 (fun _ => ((5 : Int), (0 : Int))) 8 8).2.1 1 (by decide) (by decide)

/-- Whenever a leaf chapter whose id has no entry in the research-content
map occurs anywhere in a forest, the missing-content placeholder occurs in
the text assembled for that forest, at every heading level. -/
theorem placeholder_in_level (rc : ResearchMap) (idOpt : Option (List Char))
    (sg : List Char) (hlook : assocFindL rc (idOpt.getD []) = none)
    {forest : List Chapter} (level : Nat)
    (h : InForest (Chapter.node idOpt sg []) forest) :
    SubSeg missingContentText (assembleLevel rc level forest) := by
  induction h generalizing level with
  | head d rest hc =>
    subst hc
    refine ⟨'\n' :: hashRun level ++ ' ' :: (idOpt.getD []) ++ ' ' :: sg ++ ('\n' :: ['\n']),
      assembleLevel rc level rest, ?_⟩
    simp [assembleLevel, contentFor, hlook, List.append_assoc]
  | child idOpt2 sg2 steps rest hin ih =>
    obtain ⟨s, t, heq⟩ := ih (level + 1)
    cases steps with
    | nil => cases hin
    | cons s0 ss0 =>
      refine ⟨('\n' :: hashRun level ++ ' ' :: (idOpt2.getD []) ++ ' ' :: sg2 ++
        ('\n' :: ['\n'])) ++ s, t ++ assembleLevel rc level rest, ?_⟩
      simp only [assembleLevel]
      rw [heq]
      simp [List.append_assoc]
  | tail d rest hin ih =>
    obtain ⟨s, t, heq⟩ := ih level
    cases d with
    | node idOpt2 sg2 steps2 =>
      cases steps2 with
      | nil =>
        refine ⟨('\n' :: hashRun level ++ ' ' :: (idOpt2.getD []) ++ ' ' :: sg2 ++
            ('\n' :: ['\n'])) ++ contentFor rc (idOpt2.getD []) ++ s, t, ?_⟩
        simp only [assembleLevel]
        rw [heq]
        simp [List.append_assoc]
      | cons s1 ss1 =>
        refine ⟨('\n' :: hashRun level ++ ' ' :: (idOpt2.getD []) ++ ' ' :: sg2 ++
            ('\n' :: ['\n'])) ++ assembleLevel rc (level + 1) (s1 :: ss1) ++ s, t, ?_⟩
        simp only [assembleLevel]
        rw [heq]
        simp [List.append_assoc]

/-- C9: the report assembler is a pure function — two invocations on the
same goal, plan tree and research-content map produce the identical
document — and it is total on trees with missing content: a leaf present in
the tree whose id is absent from `research_content` contributes the defined
missing-content placeholder to the document instead of failing. -/
theorem C9_report_assembly (goal : List Char) (plan : List Chapter) (rc : ResearchMap) :
    assembleFinalReport goal plan rc = assembleFinalReport goal plan rc ∧
    (∀ idOpt sg, InForest (Chapter.node idOpt sg []) plan →
      assocFindL rc (idOpt.getD []) = none →
      SubSeg missingContentText (assembleFinalReport goal plan rc)) := by
  refine ⟨rfl, ?_⟩
  intro idOpt sg hin hlook
  obtain ⟨s, t, heq⟩ := placeholder_in_level rc idOpt sg hlook 2 hin
  refine ⟨('#' :: ' ' :: goal ++ ('\n' :: ['\n'])) ++ s, t, ?_⟩
  simp only [assembleFinalReport]
  rw [heq]
  simp [List.append_assoc]

/-- Closed witness for `C9_report_assembly` on a one-leaf plan with an
empty research-content map. -/
theorem C9_report_assembly_witness :
    SubSeg missingContentText
      (assembleFinalReport "G".toList [Chapter.node (some "1".toList) "T".toList []] []) :=
  (C9_report_assembly "G".toList [Chapter.node (some "1".toList) "T".toList []] []).2
    (some "1".toList) "T".toList (InForest.head _ _ rfl) rfl

/-- Two adjacent history entries are acceptable when at least one of them
succeeded. -/
def okPair (a b : Option String × Bool) : Prop := a.2 = true ∨ b.2 = true

/-- No two consecutive entries of the action history both failed. -/
def noConsecFailures (l : List (Option String × Bool)) : Prop := List.Chain' okPair l

/-- One unfolding step of the explore loop. -/
theorem exploreGo_succ (script : ExploreScript) (i fuel consec : Nat) (st : ExploreState) :
    exploreGo script i (fuel + 1) consec st =
      if 2 ≤ nextConsec (execExploreStep script i st).history consec then
        (execExploreStep script i st, ExploreOutcome.stuckError)
      else if (execExploreStep script i st).finished then
        (execExploreStep script i st, ExploreOutcome.finishedNormally)
      else
        exploreGo script (i + 1) fuel
          (nextConsec (execExploreStep script i st).history consec)
          (execExploreStep script i st) := rfl

/-- Invariant proof for the explore loop: starting from a history with no
two consecutive failures, and a `consecutive_failures` counter that is
positive whenever the last entry failed, a run that does not abort with the
stuck-loop error never accumulates two consecutive failed entries. -/
theorem exploreGo_chain (script : ExploreScript) :
    ∀ (fuel i consec : Nat) (st : ExploreState),
      noConsecFailures st.history →
      (∀ e, st.history.getLast? = some e → e.2 = false → 1 ≤ consec) →
      (exploreGo script i fuel consec st).2 ≠ ExploreOutcome.stuckError →
      noConsecFailures (exploreGo script i fuel consec st).1.history := by
  intro fuel
  induction fuel with
  | zero =>
    intro i consec st h hc hout
    exact h
  | succ fuel ih =>
    intro i consec st h hc hout
    have hlast : (execExploreStep script i st).history.getLast? =
        some (stepEntry script i) := by
      simp [execExploreStep]
    have hconsec1 : nextConsec (execExploreStep script i st).history consec =
        if (stepEntry script i).2 = false then consec + 1 else 0 := by
      simp [nextConsec, hlast]
    by_cases hstuck : 2 ≤ nextConsec (execExploreStep script i st).history consec
    · exfalso
      apply hout
      simp [exploreGo, hstuck]
    · have hchain1 : noConsecFailures (execExploreStep script i st).history := by
        unfold noConsecFailures at h ⊢
        simp only [execExploreStep]
        rw [List.chain'_append]
        refine ⟨h, by simp, ?_⟩
        intro x hx y hy
        simp only [List.head?_cons, Option.mem_def, Option.some.injEq] at hy
        subst hy
        cases hx2 : x.2 with
        | true => exact Or.inl hx2
        | false =>
          have hcge := hc x (by simpa using hx) hx2
          right
          cases hfe : (stepEntry script i).2 with
          | true => rfl
          | false =>
            exfalso
            apply hstuck
            rw [hconsec1, if_pos hfe]
            omega
      have hinv1 : ∀ e, (execExploreStep script i st).history.getLast? = some e →
          e.2 = false → 1 ≤ nextConsec (execExploreStep script i st).history consec := by
        intro e he hef
        rw [hlast] at he
        have he2 : stepEntry script i = e := by
          injection he
        rw [← he2] at hef
        rw [hconsec1, if_pos hef]
        omega
      by_cases hfin : (execExploreStep script i st).finished
      · have hr : exploreGo script i (fuel + 1) consec st =
            (execExploreStep script i st, ExploreOutcome.finishedNormally) := by
          simp [exploreGo, hstuck, hfin]
        rw [hr]
        exact hchain1
      · have hr : exploreGo script i (fuel + 1) consec st =
            exploreGo script (i + 1) fuel
              (nextConsec (execExploreStep script i st).history consec)
              (execExploreStep script i st) := by
          simp [exploreGo, hstuck, hfin]
        rw [hr] at hout ⊢
        exact ih (i + 1) _ _ hchain1 hinv1 hout

/-- C6: explore-mode stuck-loop abort.  First conjunct: a run that does not
abort with the stuck-loop error never contains two consecutive dispatched
failures in its action history (so whenever two consecutive actions fail,
the loop aborted rather than continuing).  Second conjunct: when the first
two steps both dispatch an action whose observation contains the
"no source selected" sentinel and the first critique does not finish the
task, the run aborts with the stuck-loop error and executes exactly those
two steps — no third attempt — regardless of what the second critique
reports (the stuck check has priority over the finished verdict). -/
theorem C6_explore_stuck (script : ExploreScript) :
    ((runExploreMode script).2 ≠ ExploreOutcome.stuckError →
      noConsecFailures (runExploreMode script).1.history) ∧
    (∀ a1 a2 o1 o2,
      script.decide 1 = { action := some a1, observation := o1 } →
      script.decide 2 = { action := some a2, observation := o2 } →
      isDispatched (some a1) = true → isDispatched (some a2) = true →
      strContains o1 noSourceSentinel = true → strContains o2 noSourceSentinel = true →
      script.critFinished 1 = false →
      (runExploreMode script).2 = ExploreOutcome.stuckError ∧
      (runExploreMode script).1.history = [(some a1, false), (some a2, false)]) := by
  constructor
  · intro hout
    exact exploreGo_chain script 10 1 0 { history := [], finished := false }
      (by simp [noConsecFailures]) (by intro e he; simp at he) hout
  · intro a1 a2 o1 o2 h1 h2 hd1 hd2 hs1 hs2 hcrit
    have he1 : stepEntry script 1 = (some a1, false) := by
      simp [stepEntry, h1, hd1, hs1]
    have he2 : stepEntry script 2 = (some a2, false) := by
      simp [stepEntry, h2, hd2, hs2]
    have hst1 : execExploreStep script 1 { history := [], finished := false } =
        { history := [(some a1, false)], finished := false } := by
      simp [execExploreStep, he1, hcrit]
    have hst2 : execExploreStep script 2 { history := [(some a1, false)], finished := false } =
        { history := [(some a1, false), (some a2, false)],
          finished := script.critFinished 2 } := by
      simp [execExploreStep, he2]
    have hn1 : nextConsec [(some a1, false)] 0 = 1 := by
      simp [nextConsec]
    have hn2 : nextConsec [(some a1, false), (some a2, false)] 1 = 2 := by
      simp [nextConsec]
    have hrun : runExploreMode script =
        ({ history := [(some a1, false), (some a2, false)],
           finished := script.critFinished 2 }, ExploreOutcome.stuckError) := by
      unfold runExploreMode
      rw [show (10 : Nat) = 9 + 1 from rfl, exploreGo_succ, hst1, hn1]
      rw [if_neg (by omega), if_neg (by simp)]
      rw [show (9 : Nat) = 8 + 1 from rfl, exploreGo_succ, hst2, hn2]
      rw [if_pos (by omega)]
    rw [hrun]
    exact ⟨rfl, rfl⟩

/-- Closed witness for `C6_explore_stuck`: a script whose
`retrieve_knowledge` dispatch returns the sentinel on every step and whose
critique reports finished from step 2 on; the run still aborts stuck after
exactly two attempts. -/
theorem C6_explore_stuck_witness :
    (runExploreMode (ExploreScript.mk
        (fun _ => ActDecision.mk (some "retrieve_knowledge")
          "No knowledge source selected. Cannot retrieve information.")
        (fun i => 2 ≤ i))).2 = ExploreOutcome.stuckError ∧
    (runExploreMode (ExploreScript.mk
        (fun _ => ActDecision.mk (some "retrieve_knowledge")
          "No knowledge source selected. Cannot retrieve information.")
        (fun i => 2 ≤ i))).1.history =
      [(some "retrieve_knowledge", false), (some "retrieve_knowledge", false)] :=
  (C6_explore_stuck (ExploreScript.mk
      (fun _ => ActDecision.mk (some "retrieve_knowledge")
        "No knowledge source selected. Cannot retrieve information.")
      (fun i => 2 ≤ i))).2
    "retrieve_knowledge" "retrieve_knowledge"
    "No knowledge source selected. Cannot retrieve information."
    "No knowledge source selected. Cannot retrieve information."
    rfl rfl (by decide) (by decide) (by decide) (by decide) (by decide)

/-- A concrete elaboration dict produced by phase 1. -/
def cexElaboration : List (String × String) :=
  [("summary", "s"), ("style", "t"), ("strategy", "g")]

/-- A concrete one-leaf outline produced by phase 2. -/
def cexOutline : List OutlineNode :=
  [{ subGoal := "Intro", wordCount := some 100, children := [] }]

/-- An oracle whose strategy and content responses always parse and whose
critique always passes. -/
def cexOracle : WPrompt → WResp :=
  fun _ => { strategy := some "S", content := some "C", passed := true, assessment := some "ok" }

/-- C1 counterexample: the claim says a paused write task reconstructed
from storage and resumed without caller-supplied overrides uses the same
elaboration and produces the same prompts as the uninterrupted phase-4/5
run.  The pause persists the elaboration only inside a step row that the
resume path never reads, so the reconstructed context has an empty
elaboration dict: the resumed run fails with a `KeyError` on `summary`
before issuing a single prompt, while the uninterrupted run issues its
prompt sequence — the two runs differ. -/
theorem C1_resume_counterexample :
    (resumeWriteMode cexOracle
        (rebuildContext (runWritePhases cexElaboration cexOutline) none).elaboration
        (rebuildContext (runWritePhases cexElaboration cexOutline) none).plan =
      Except.error "KeyError: summary") ∧
    resumeWriteMode cexOracle
        (runWritePhases cexElaboration cexOutline).ctxElaboration
        (runWritePhases cexElaboration cexOutline).ctxPlan ≠
      resumeWriteMode cexOracle
        (rebuildContext (runWritePhases cexElaboration cexOutline) none).elaboration
        (rebuildContext (runWritePhases cexElaboration cexOutline) none).plan := by
  constructor
  · rfl
  · have hr : resumeWriteMode cexOracle
        (rebuildContext (runWritePhases cexElaboration cexOutline) none).elaboration
        (rebuildContext (runWritePhases cexElaboration cexOutline) none).plan =
        Except.error "KeyError: summary" := rfl
    rw [hr]
    intro h
    simp only [runWritePhases] at h
    simp [resumeWriteMode, elaborationStrResume, assocFind, cexElaboration, cexOutline,
      cexOracle, addMetaGo, getStrategiesGo, collectLeaves, writeLeavesGo, critRefine,
      setStatusForest, setStatusNodes, parentIdOf, splitOnDot, joinDots, dumpForest, dumpNode,
      show toString (1 : Nat) = "1" from rfl] at h

/-- C1 (amended): the resumed run reconstructs the same context — and hence
issues the same chapter-strategy and leaf-content prompts in the same
order — exactly when the resume payload supplies the persisted plan and the
original elaboration (which is what the `/resume-write-task` endpoint
sends); the equality holds for every elaboration, outline and model
oracle. -/
theorem C1_resume_amended (E : List (String × String)) (P : List OutlineNode)
    (oracle : WPrompt → WResp) :
    resumeWriteMode oracle
        (rebuildContext (runWritePhases E P)
          (some { plan := (runWritePhases E P).dbPlan.getD [], elaboration := E })).elaboration
        (rebuildContext (runWritePhases E P)
          (some { plan := (runWritePhases E P).dbPlan.getD [], elaboration := E })).plan =
      resumeWriteMode oracle (runWritePhases E P).ctxElaboration
        (runWritePhases E P).ctxPlan := rfl

/- ## Lemmas about the extraction pipeline, for claim C4 -/

/-- The characters on which `parseVal` can start a value. -/
def jsonStartChar (c : Char) : Bool :=
  c = '\x7b' || c = '[' || c = '"' || c = 't' || c = 'f' || c = 'n' || c = '-' || isDigitChar c

/-- Dropping while a predicate holds ignores content after a failing
character. -/
theorem dropWhile_append_cons {p : Char → Bool} {c : Char} (hc : p c = false) :
    ∀ (l r : List Char), (l ++ c :: r).dropWhile p = l.dropWhile p ++ c :: r := by
  intro l
  induction l with
  | nil => intro r; simp [List.dropWhile_cons, hc]
  | cons a l ih =>
    intro r
    by_cases ha : p a
    · simp [List.dropWhile_cons, ha, ih r]
    · simp [List.dropWhile_cons, ha]

/-- When the left part survives the drop, appending does not change it. -/
theorem dropWhile_append_of_cons {p : Char → Bool} {l₁ : List Char} {h : Char} {t : List Char}
    (hd : l₁.dropWhile p = h :: t) (l₂ : List Char) :
    (l₁ ++ l₂).dropWhile p = h :: (t ++ l₂) := by
  induction l₁ with
  | nil => simp at hd
  | cons a l ih =>
    by_cases ha : p a
    · simp [List.dropWhile_cons, ha] at hd ⊢
      exact ih hd
    · simp [List.dropWhile_cons, ha] at hd ⊢
      exact ⟨hd.1, by rw [hd.2]⟩

/-- The head surviving a `dropWhile` fails the predicate. -/
theorem dropWhile_head_false {p : Char → Bool} :
    ∀ {l : List Char} {h : Char} {t : List Char}, l.dropWhile p = h :: t → p h = false := by
  intro l
  induction l with
  | nil => intro h t hd; simp at hd
  | cons a l ih =>
    intro h t hd
    by_cases ha : p a
    · rw [List.dropWhile_cons, if_pos ha] at hd
      exact ih hd
    · rw [List.dropWhile_cons, if_neg ha] at hd
      cases hd
      simpa using ha

/-- The head surviving a `dropWhile` is a member of the list. -/
theorem dropWhile_head_mem {p : Char → Bool} :
    ∀ {l : List Char} {h : Char} {t : List Char}, l.dropWhile p = h :: t → h ∈ l := by
  intro l
  induction l with
  | nil => intro h t hd; simp at hd
  | cons a l ih =>
    intro h t hd
    by_cases ha : p a
    · rw [List.dropWhile_cons, if_pos ha] at hd
      exact List.mem_cons_of_mem a (ih hd)
    · rw [List.dropWhile_cons, if_neg ha] at hd
      cases hd
      exact List.mem_cons_self _ _

/-- Stripping a text whose first and last characters are not whitespace is
the identity. -/
theorem pyStrip_first_last {a b : Char} (ha : pyWs a = false) (hb : pyWs b = false)
    (l : List Char) : pyStrip (a :: (l ++ [b])) = a :: (l ++ [b]) := by
  unfold pyStrip
  have h1 : (a :: (l ++ [b])).dropWhile pyWs = a :: (l ++ [b]) := by
    simp [List.dropWhile_cons, ha]
  rw [h1]
  have h2 : (a :: (l ++ [b])).reverse = b :: (l.reverse ++ [a]) := by
    simp
  rw [h2]
  have h3 : (b :: (l.reverse ++ [a])).dropWhile pyWs = b :: (l.reverse ++ [a]) := by
    simp [List.dropWhile_cons, hb]
  rw [h3, ← h2]
  simp

/-- Stripping keeps the head of the left-trimmed text. -/
theorem pyStrip_eq_cons {cs : List Char} {h : Char} {t : List Char}
    (hd : cs.dropWhile pyWs = h :: t) :
    pyStrip cs = h :: (t.reverse.dropWhile pyWs).reverse := by
  have hh : pyWs h = false := dropWhile_head_false hd
  unfold pyStrip
  rw [hd]
  have h2 : (h :: t).reverse = t.reverse ++ h :: [] := by simp
  rw [h2, dropWhile_append_cons hh]
  simp

/-- The parser rejects any text whose first character can start no JSON
value. -/
theorem jsonLoads_cons_none {c : Char} (hws : jsonWsChar c = false)
    (hstart : jsonStartChar c = false) (t : List Char) : jsonLoads (c :: t) = none := by
  simp only [jsonStartChar, Bool.or_eq_false_iff, decide_eq_false_iff_not] at hstart
  obtain ⟨⟨⟨⟨⟨⟨⟨h1, h2⟩, h3⟩, h4⟩, h5⟩, h6⟩, h7⟩, h8⟩ := hstart
  simp only [jsonLoads, List.length_cons]
  have hskip : skipJsonWs (c :: t) = c :: t := by
    simp [skipJsonWs, List.dropWhile_cons, hws]
  simp [parseVal, hskip, h1, h2, h3, h4, h5, h6, h7, h8]

/-- A list never prefixed by a character other than its own head. -/
theorem isPrefixList_append_self : ∀ (p r : List Char), isPrefixList p (p ++ r) = true := by
  intro p
  induction p with
  | nil => intro r; rfl
  | cons a p ih => intro r; simp [isPrefixList, ih r]

/-- Without the marker head character the marker never occurs. -/
theorem afterMarkerOpt_none : ∀ {cs : List Char}, '<' ∉ cs → afterMarkerOpt cs = none := by
  intro cs
  induction cs with
  | nil => intro _; rfl
  | cons c rest ih =>
    intro h
    have hc : c ≠ '<' := by
      intro hc
      exact h (by rw [hc]; exact List.mem_cons_self _ _)
    have hrest : '<' ∉ rest := fun hm => h (List.mem_cons_of_mem c hm)
    simp only [afterMarkerOpt, ih hrest]
    have hpre : isPrefixList thinkMarker (c :: rest) = false := by
      simp [thinkMarker, isPrefixList]
      intro he
      exact absurd he.symm hc
    simp [hpre]

/-- The marker-splitting step is the identity on marker-free text. -/
theorem splitThink_id {cs : List Char} (h : '<' ∉ cs) : splitThink cs = cs := by
  simp [splitThink, afterMarkerOpt_none h]

/-- The non-greedy group scan stops exactly at a closing brace whose
continuation matches, when no earlier closing brace admits the
continuation. -/
theorem minBraceScan_last (cont : List Char → Bool) :
    ∀ (mid tail : List Char), cont tail = true →
      (∀ pre suf, mid = pre ++ '\x7d' :: suf → cont (suf ++ '\x7d' :: tail) = false) →
      minBraceScan cont (mid ++ '\x7d' :: tail) = some (mid ++ ['\x7d'], tail) := by
  intro mid
  induction mid with
  | nil =>
    intro tail htail _
    simp [minBraceScan, htail]
  | cons c mid ih =>
    intro tail htail hsplit
    have hnot : (c = '\x7d' && cont (mid ++ '\x7d' :: tail)) = false := by
      by_cases hc : c = '\x7d'
      · subst hc
        simp [hsplit [] mid rfl]
      · simp [hc]
    simp only [List.cons_append, minBraceScan, List.append_eq, hnot, Bool.false_eq_true,
      if_false]
    rw [ih tail htail (fun pre suf hps => hsplit (c :: pre) suf (by rw [hps]; rfl))]

/-- The regex search skips any prefix free of backticks and opening
braces. -/
theorem regexSearch_skip :
    ∀ (p1 rest : List Char), (∀ c ∈ p1, c ≠ '\x7b' ∧ c ≠ '`') →
      regexSearch (p1 ++ rest) = regexSearch rest := by
  intro p1
  induction p1 with
  | nil => intro rest _; rfl
  | cons c p1 ih =>
    intro rest hp
    have hc := hp c (List.mem_cons_self _ _)
    have ha1 : tryAlt1 (c :: (p1 ++ rest)) = none := by
      have hpre : isPrefixList fenceJsonChars (c :: (p1 ++ rest)) = false := by
        simp [fenceJsonChars, isPrefixList]
        intro he
        exact absurd he.symm hc.2
      simp [tryAlt1, hpre]
    have ha2 : tryAlt2 (c :: (p1 ++ rest)) = none := by
      simp [tryAlt2, hc.1]
    simp only [List.cons_append, regexSearch, List.append_eq, ha1, ha2]
    exact ih rest (fun d hd => hp d (List.mem_cons_of_mem c hd))

/-- C4 counterexample: a string that is already a valid JSON object is not
always returned unchanged — when the object contains the reasoning marker
`</think>` inside a string value, the extraction routine first discards
everything up to the marker and then fails every parsing stage, so the
routine yields a parse failure (a retry) instead of the object. -/
theorem C4_extraction_counterexample :
    jsonLoads "\x7b\"a\": \"</think>\"\x7d".toList =
      some (Json.obj [("a", Json.str "</think>")]) ∧
    extractJson "\x7b\"a\": \"</think>\"\x7d".toList = none := by
  constructor
  · rfl
  · rfl

/-- JSON whitespace is Python whitespace. -/
theorem jsonWs_of_pyWs_false {c : Char} (h : pyWs c = false) : jsonWsChar c = false := by
  simp only [pyWs, Bool.or_eq_false_iff] at h
  simp only [jsonWsChar, Bool.or_eq_false_iff]
  tauto

/-- The fenced wrapping of a response text, Python
`"```json\n" + s + "\n```"`. -/
def fencedWrap (s : List Char) : List Char :=
  fenceJsonChars ++ '\n' :: (s ++ ['\n', '`', '`', '`'])

/-- C4 (amended): for a JSON object text free of the reasoning marker (no
`<`) and of backticks, the extraction routine returns the parsed object
unchanged; the same holds when the text is wrapped in a ```json fenced code
block, and — when the object closes only at its final brace — when it is
wrapped in leading/trailing prose whose leading part contains no opening
brace or backtick and starts (after whitespace) with a character that
cannot begin a JSON value, and whose parts contain no marker
character. -/
theorem C4_extraction_amended (mid p1 p2 : List Char) (j : Json)
    (hload : jsonLoads ('\x7b' :: (mid ++ ['\x7d'])) = some j)
    (hbt : '`' ∉ '\x7b' :: (mid ++ ['\x7d']))
    (hlt : '<' ∉ '\x7b' :: (mid ++ ['\x7d'])) :
    extractJson ('\x7b' :: (mid ++ ['\x7d'])) = some j ∧
    extractJson (fencedWrap ('\x7b' :: (mid ++ ['\x7d']))) = some j ∧
    ('\x7d' ∉ mid →
      (∀ c ∈ p1, c ≠ '\x7b' ∧ c ≠ '`' ∧ c ≠ '<') →
      '<' ∉ p2 →
      (∃ h t, p1.dropWhile pyWs = h :: t ∧ jsonStartChar h = false) →
      extractJson (p1 ++ ('\x7b' :: (mid ++ ['\x7d'])) ++ p2) = some j) := by
  have hopen : pyWs '\x7b' = false := by decide
  have hclose : pyWs '\x7d' = false := by decide
  have htick : pyWs '`' = false := by decide
  refine ⟨?_, ?_, ?_⟩
  · -- direct parse of the bare object
    simp only [extractJson]
    rw [splitThink_id hlt, pyStrip_first_last hopen hclose, hload]
  · -- fenced code block
    have hltW : '<' ∉ fencedWrap ('\x7b' :: (mid ++ ['\x7d'])) := by
      intro hmem
      simp [fencedWrap, fenceJsonChars] at hmem
      exact hlt (by simp [hmem])
    have hshape : fencedWrap ('\x7b' :: (mid ++ ['\x7d'])) =
        '`' :: (('`' :: '`' :: 'j' :: 's' :: 'o' :: 'n' :: '\n' ::
          (('\x7b' :: (mid ++ ['\x7d'])) ++ ['\n', '`', '`'])) ++ ['`']) := by
      simp [fencedWrap, fenceJsonChars]
    have hmidbt : '`' ∉ mid := by
      intro hm
      exact hbt (by simp [hm])
    have hscan : minBraceScan fenceCont (mid ++ '\x7d' :: ('\n' :: ['`', '`', '`'])) =
        some (mid ++ ['\x7d'], '\n' :: ['`', '`', '`']) := by
      apply minBraceScan_last
      · decide
      · intro pre suf hps
        have hsufmem : ∀ c ∈ suf, c ∈ mid := by
          intro c hc
          rw [hps]
          simp [hc]
        unfold fenceCont
        rw [dropWhile_append_cons hclose]
        cases hdw : suf.dropWhile pyWs with
        | nil => simp [hdw, isPrefixList, fenceChars]
        | cons h t =>
          have hmem : h ∈ mid := hsufmem h (dropWhile_head_mem hdw)
          have hne : h ≠ '`' := fun he => hmidbt (he ▸ hmem)
          simp [hdw, isPrefixList, fenceChars]
          intro he
          exact absurd he.symm hne
    have halt1 : tryAlt1 (fencedWrap ('\x7b' :: (mid ++ ['\x7d']))) =
        some ('\x7b' :: (mid ++ ['\x7d'])) := by
      unfold tryAlt1
      rw [if_pos]
      · have hdrop : (fencedWrap ('\x7b' :: (mid ++ ['\x7d']))).drop 7 =
            '\n' :: (('\x7b' :: (mid ++ ['\x7d'])) ++ ['\n', '`', '`', '`']) := by
          unfold fencedWrap
          rw [show (7 : Nat) = fenceJsonChars.length from rfl]
          exact List.drop_left _ _
        rw [hdrop]
        have hdw : ('\n' :: (('\x7b' :: (mid ++ ['\x7d'])) ++
            ['\n', '`', '`', '`'])).dropWhile pyWs =
            '\x7b' :: (mid ++ '\x7d' :: ('\n' :: ['`', '`', '`'])) := by
          rw [List.dropWhile_cons]
          simp only [show pyWs '\n' = true from rfl, if_true]
          have hre : ('\x7b' :: (mid ++ ['\x7d'])) ++ ['\n', '`', '`', '`'] =
              '\x7b' :: (mid ++ '\x7d' :: ('\n' :: ['`', '`', '`'])) := by
            simp
          rw [hre, List.dropWhile_cons, if_neg (by simp [hopen])]
        rw [hdw]
        simp only [hscan]
      · unfold fencedWrap
        exact isPrefixList_append_self _ _
    have hsearch : regexSearch (fencedWrap ('\x7b' :: (mid ++ ['\x7d']))) =
        some ('\x7b' :: (mid ++ ['\x7d'])) := by
      have hcons : fencedWrap ('\x7b' :: (mid ++ ['\x7d'])) =
          '`' :: ('`' :: '`' :: 'j' :: 's' :: 'o' :: 'n' :: '\n' ::
            (('\x7b' :: (mid ++ ['\x7d'])) ++ ['\n', '`', '`', '`'])) := by
        simp [fencedWrap, fenceJsonChars]
      conv_lhs => rw [hcons]
      simp only [regexSearch]
      rw [← hcons]
      simp only [halt1]
    simp only [extractJson]
    rw [splitThink_id hltW]
    have hstrip : pyStrip (fencedWrap ('\x7b' :: (mid ++ ['\x7d']))) =
        fencedWrap ('\x7b' :: (mid ++ ['\x7d'])) := by
      rw [hshape, pyStrip_first_last htick htick]
    rw [hstrip]
    have hnoparse : jsonLoads (fencedWrap ('\x7b' :: (mid ++ ['\x7d']))) = none := by
      rw [hshape]
      exact jsonLoads_cons_none (by decide) (by decide) _
    rw [hnoparse]
    simp only [hsearch, hload]
  · -- prose wrapping
    intro hmid hp1 hp2 ⟨h, t, hdw, hstart⟩
    have hltP : '<' ∉ p1 ++ ('\x7b' :: (mid ++ ['\x7d'])) ++ p2 := by
      intro hmem
      simp only [List.mem_append] at hmem
      rcases hmem with (h1 | h1) | h1
      · exact (hp1 '<' h1).2.2 rfl
      · exact hlt h1
      · exact hp2 h1
    simp only [extractJson]
    rw [splitThink_id hltP]
    have hdwW : (p1 ++ ('\x7b' :: (mid ++ ['\x7d'])) ++ p2).dropWhile pyWs =
        h :: (t ++ (('\x7b' :: (mid ++ ['\x7d'])) ++ p2)) := by
      rw [List.append_assoc]
      rw [dropWhile_append_of_cons hdw]
    have hstrip := pyStrip_eq_cons hdwW
    rw [hstrip]
    have hnoparse : jsonLoads (h :: ((t ++ (('\x7b' :: (mid ++ ['\x7d'])) ++
        p2)).reverse.dropWhile pyWs).reverse) = none :=
      jsonLoads_cons_none (jsonWs_of_pyWs_false (dropWhile_head_false hdw)) hstart _
    rw [hnoparse]
    have hsearchP : regexSearch (p1 ++ ('\x7b' :: (mid ++ ['\x7d'])) ++ p2) =
        some ('\x7b' :: (mid ++ ['\x7d'])) := by
      rw [List.append_assoc]
      rw [regexSearch_skip p1 _ (fun c hc => ⟨(hp1 c hc).1, (hp1 c hc).2.1⟩)]
      have hform : ('\x7b' :: (mid ++ ['\x7d'])) ++ p2 =
          '\x7b' :: (mid ++ '\x7d' :: p2) := by
        simp
      rw [hform]
      have ha1 : tryAlt1 ('\x7b' :: (mid ++ '\x7d' :: p2)) = none := by
        unfold tryAlt1
        rw [if_neg]
        simp [fenceJsonChars, isPrefixList]
      have hscan2 : minBraceScan (fun _ => true) (mid ++ '\x7d' :: p2) =
          some (mid ++ ['\x7d'], p2) := by
        apply minBraceScan_last
        · rfl
        · intro pre suf hps
          exact absurd (by rw [hps]; simp : '\x7d' ∈ mid) hmid
      have ha2 : tryAlt2 ('\x7b' :: (mid ++ '\x7d' :: p2)) =
          some ('\x7b' :: (mid ++ ['\x7d'])) := by
        simp [tryAlt2, hscan2]
      simp only [regexSearch, ha1, ha2]
    simp only [hsearchP, hload]

/-- Closed witness for `C4_extraction_amended`: the object `\x7b"a": 1\x7d`
wrapped in leading and trailing prose is extracted unchanged. -/
theorem C4_extraction_amended_witness :
    extractJson ("Here is the JSON: ".toList ++
        ('\x7b' :: ("\"a\": 1".toList ++ ['\x7d'])) ++ " Done.".toList) =
      some (Json.obj [("a", Json.num 1)]) :=
  (C4_extraction_amended "\"a\": 1".toList "Here is the JSON: ".toList " Done.".toList
      (Json.obj [("a", Json.num 1)]) (by rfl) (by decide) (by decide)).2.2
    (by decide) (by decide) (by decide)
    ⟨'H', "ere is the JSON: ".toList, by rfl, by rfl⟩

end NexusCopilot
